import Mathlib

/-!
Verification development for `library/lcd_comm_rev_b.py` — the HW revision B
driver for the Turing smart screen.  The definitions below are a shallow
embedding of the Python source: bytes are modelled as `Nat`, Python lists as
`List Nat`, an operation that can raise an exception returns an `Option`,
and the jobs placed on the global update queue are modelled explicitly.
-/

namespace RevB

/-- Command opcodes (class `Command` in the source). -/
def HELLO : Nat := 0xCA

def SET_ORIENTATION : Nat := 0xCB

def DISPLAY_BITMAP : Nat := 0xCC

def SET_LIGHTING : Nat := 0xCD

def SET_BRIGHTNESS : Nat := 0xCE

/-- The four capability tiers of HW revision B (class `SubRevision`). -/
inductive SubRevision
  | A01
  | A02
  | A11
  | A12
deriving DecidableEq

/-- `LcdCommRevB.is_brightness_range`: tiers A11 and A12 support the
0-255 brightness range. -/
def is_brightness_range : SubRevision → Bool
  | SubRevision.A11 => true
  | SubRevision.A12 => true
  | _ => false

/-- Payload normalisation of `LcdCommRevB.SendCommand` (lines 67-70):
`None` becomes eight zero bytes, a payload shorter than 8 bytes is padded
with trailing zeros, and a payload of 8 bytes or more is left untouched. -/
def padPayload (payload : Option (List Nat)) : List Nat :=
  match payload with
  | none => List.replicate 8 0
  | some p => if p.length < 8 then p ++ List.replicate (8 - p.length) 0 else p

/-- The 10-byte frame built by `LcdCommRevB.SendCommand` (lines 72-82):
`byteBuffer[0] = cmd`, `byteBuffer[i+1] = payload[i]` for `i = 0..7`,
`byteBuffer[9] = cmd`.  Only the first eight payload bytes are ever read. -/
def sendCommandFrame (cmd : Nat) (payload : Option (List Nat)) : List Nat :=
  let p := padPayload payload
  [cmd, p.getD 0 0, p.getD 1 0, p.getD 2 0, p.getD 3 0,
   p.getD 4 0, p.getD 5 0, p.getD 6 0, p.getD 7 0, cmd]

/-- Brightness encoding of `LcdCommRevB.SetBrightness` (lines 161-168).
On a range-capable tier the source computes `int((level_user / 100) * 255)`
with IEEE-double arithmetic; for every `level_user` in 0-100 this equals the
integer floor division `level_user * 255 / 100` (the double rounding never
crosses an integer boundary on this range), which is how it is embedded
here.  On a binary tier the polarity is inverted: `1` when the level is 0
(off), `0` otherwise (full brightness). -/
def setBrightnessLevel (brightness_range : Bool) (level_user : Nat) : Nat :=
  if brightness_range then
    level_user * 255 / 100
  else
    if level_user = 0 then 1 else 0

/-- Response processing of `LcdCommRevB.Hello` (lines 115-136), modelled on
the reply byte list.  Python indexing into a too-short `bytes` raises
`IndexError`; such an access is modelled as `none`.  The length /
framing / echo checks on lines 115-120 only log warnings, but line 117
needs `response[0]` and `response[-1]` (any non-empty reply), and lines
124-132 need `response[6]` and, when byte 6 is `0x0A`, `response[7]`.
`some r` means the call returns normally with `sub_revision = r`. -/
def helloProcess (response : List Nat) (current : SubRevision) :
    Option SubRevision :=
  match response with
  | [] => none
  | _ :: _ =>
    match response.get? 6 with
    | none => none
    | some b6 =>
      if b6 = 0xA then
        match response.get? 7 with
        | none => none
        | some b7 =>
          if b7 = 0x01 then some SubRevision.A01
          else if b7 = 0x02 then some SubRevision.A02
          else if b7 = 0x11 then some SubRevision.A11
          else if b7 = 0x12 then some SubRevision.A12
          else some current
      else some current

/-- Pixel packing of `LcdCommRevB.DisplayPILImage` (lines 220-232):
`R = pix >> 3`, `G = pix >> 2`, `B = pix >> 3`, then
`rgb = (B << 8) | (G >> 3) | ((G & 7) << 13) | (R << 3)`. -/
def encodeRGB (R G B : Nat) : Nat :=
  let r := R >>> 3
  let g := G >>> 2
  let b := B >>> 3
  (b <<< 8) ||| (g >>> 3) ||| ((g &&& 7) <<< 13) ||| (r <<< 3)

/-- `struct.pack('H', n)`: two little-endian bytes for an unsigned 16-bit
value; raises `struct.error` (modelled as `none`) when `n` does not fit. -/
def packH (n : Nat) : Option (List Nat) :=
  if n < 65536 then some [n % 256, n / 256] else none

/-- The two bytes appended to the line buffer for one pixel
(`line += struct.pack('H', rgb)`, line 233), given the packed word fits in
16 bits. -/
def encodePixelLE (p : Nat × Nat × Nat) : List Nat :=
  [encodeRGB p.1 p.2.1 p.2.2 % 256, encodeRGB p.1 p.2.1 p.2.2 / 256]

/-- Width/height resolution of `LcdCommRevB.DisplayPILImage` (lines 188-198):
a zero `image_height` / `image_width` argument defaults to the native image
size, and a native size larger than the display clamps the resolved value to
the display size.  Returns `(resolved width, resolved height)`. -/
def resolvedSize (dispW dispH nativeW nativeH imageW imageH : Nat) :
    Nat × Nat :=
  let ih := if imageH = 0 then nativeH else imageH
  let iw := if imageW = 0 then nativeW else imageW
  let ih := if nativeH > dispH then dispH else ih
  let iw := if nativeW > dispW then dispW else iw
  (iw, ih)

/-- The 8-byte DISPLAY_BITMAP payload (lines 205-212): the inclusive
bounding box `(x0, y0) - (x0 + iw - 1, y0 + ih - 1)`, each coordinate sent
as `(v >> 8) & 255` then `v & 255`. -/
def displayBitmapPayload (x0 y0 iw ih : Nat) : List Nat :=
  let x1 := x0 + iw - 1
  let y1 := y0 + ih - 1
  [(x0 >>> 8) &&& 255, x0 &&& 255,
   (y0 >>> 8) &&& 255, y0 &&& 255,
   (x1 >>> 8) &&& 255, x1 &&& 255,
   (y1 >>> 8) &&& 255, y1 &&& 255]

/-- The pixels of the paint loop in raster order (lines 218-219):
`for h in range(image_height): for w in range(image_width): pix[w, h]`. -/
def rasterPixels (iw ih : Nat) (pix : Nat → Nat → Nat × Nat × Nat) :
    List (Nat × Nat × Nat) :=
  (List.range ih).flatMap fun h => (List.range iw).map fun w => pix w h

/-- One step of the line-chunking loop (lines 233-238): append the pixel's
two bytes to the current buffer; when the buffer reaches
`get_width() * 8` bytes, flush it as a pixel-line job and start afresh.
The state is `(flushed lines, current buffer)`. -/
def pushPixel (dispW : Nat) (st : List (List Nat) × List Nat)
    (p : Nat × Nat × Nat) : List (List Nat) × List Nat :=
  let line := st.2 ++ encodePixelLE p
  if dispW * 8 ≤ line.length then (st.1 ++ [line], []) else (st.1, line)

/-- All pixel-line jobs of one image paint (lines 213-242): run the
chunking loop over the raster-order pixels, then flush the remaining
partial buffer if it is non-empty. -/
def displayLines (dispW iw ih : Nat) (pix : Nat → Nat → Nat × Nat × Nat) :
    List (List Nat) :=
  let st := (rasterPixels iw ih pix).foldl (pushPixel dispW) ([], [])
  if 0 < st.2.length then st.1 ++ [st.2] else st.1

/-- A job placed on `config.update_queue`: either
`(self.WriteData, [byteBuffer])` for a command frame or
`(self.WriteLine, [line])` for a pixel line. -/
inductive Job
  | writeData (frame : List Nat)
  | writeLine (line : List Nat)
deriving DecidableEq

/-- The single job enqueued by the `SendCommand` call of
`DisplayPILImage` (lines 208-212): the DISPLAY_BITMAP frame for the
resolved bounding box, as a `(self.WriteData, [byteBuffer])` queue entry. -/
def displayCmdJob (dispW dispH nativeW nativeH x y imageW imageH : Nat) :
    Job :=
  Job.writeData (sendCommandFrame DISPLAY_BITMAP
    (some (displayBitmapPayload x y
      (resolvedSize dispW dispH nativeW nativeH imageW imageH).1
      (resolvedSize dispW dispH nativeW nativeH imageW imageH).2)))

/-- The pixel-line jobs of one image paint, in enqueue order, each a
`(self.WriteLine, [line])` queue entry. -/
def displayLineBlock (dispW dispH nativeW nativeH : Nat)
    (pix : Nat → Nat → Nat × Nat × Nat) (imageW imageH : Nat) : List Job :=
  (displayLines dispW
    (resolvedSize dispW dispH nativeW nativeH imageW imageH).1
    (resolvedSize dispW dispH nativeW nativeH imageW imageH).2 pix).map
    Job.writeLine

/-- The enqueue trace of `LcdCommRevB.DisplayPILImage` as a list of
critical sections: each inner list is the block of jobs enqueued under one
acquisition of `config.update_queue_mutex`.  `SendCommand` (lines 87-89)
takes the mutex, enqueues the single DISPLAY_BITMAP frame and releases it;
the paint loop (lines 216-242) then re-acquires the mutex and enqueues all
pixel-line jobs inside that one acquisition.  The frame and the lines are
therefore two separate critical sections, not one. -/
def displayEnqueueBlocks (dispW dispH nativeW nativeH : Nat)
    (pix : Nat → Nat → Nat × Nat × Nat) (x y imageW imageH : Nat) :
    List (List Job) :=
  [[displayCmdJob dispW dispH nativeW nativeH x y imageW imageH],
   displayLineBlock dispW dispH nativeW nativeH pix imageW imageH]

/-- `Merge a b c`: the queue contents `c` is an interleaving of the
critical-section blocks `a` of one producer with the blocks `b` of all
other producers.  The mutex guarantees block granularity: blocks are never
split, only ordered against each other (each producer's own blocks stay in
program order). -/
inductive Merge : List (List Job) → List (List Job) → List (List Job) → Prop
  | nil : Merge [] [] []
  | left (x : List Job) {a b c : List (List Job)} :
      Merge a b c → Merge (x :: a) b (x :: c)
  | right (x : List Job) {a b c : List (List Job)} :
      Merge a b c → Merge a (x :: b) (x :: c)

/-! ### Helper lemmas -/

/-- Packing disjoint bit fields: with the downsampled channels in range,
the bitwise-or packing of `DisplayPILImage` equals the arithmetic sum of
the four shifted fields (green-high bits 0-2, red bits 3-7, blue bits 8-12,
green-low bits 13-15). -/
theorem pack_fields : ∀ b5 < 32, ∀ g6 < 64, ∀ r5 < 32,
    (b5 <<< 8) ||| (g6 >>> 3) ||| ((g6 &&& 7) <<< 13) ||| (r5 <<< 3)
      = b5 * 256 + g6 / 8 + g6 % 8 * 8192 + r5 * 8 := by decide

/-- Arithmetic form of the packed pixel word for in-range channels. -/
theorem encodeRGB_arith (R G B : Nat) (hR : R ≤ 255) (hG : G ≤ 255)
    (hB : B ≤ 255) :
    encodeRGB R G B = B / 8 * 256 + G / 4 / 8 + G / 4 % 8 * 8192 + R / 8 * 8 := by
  have hr : R >>> 3 = R / 8 := by rw [Nat.shiftRight_eq_div_pow]
  have hg : G >>> 2 = G / 4 := by rw [Nat.shiftRight_eq_div_pow]
  have hb : B >>> 3 = B / 8 := by rw [Nat.shiftRight_eq_div_pow]
  calc encodeRGB R G B
      = ((B / 8) <<< 8) ||| ((G / 4) >>> 3) ||| (((G / 4) &&& 7) <<< 13)
          ||| ((R / 8) <<< 3) := by
        simp only [encodeRGB, hr, hg, hb]
    _ = B / 8 * 256 + G / 4 / 8 + G / 4 % 8 * 8192 + R / 8 * 8 :=
        pack_fields (B / 8) (by omega) (G / 4) (by omega) (R / 8) (by omega)

/-- Byte `i + 1` of a built frame is byte `i` of the normalised payload. -/
theorem frame_byte (cmd : Nat) (payload : Option (List Nat)) (i : Nat)
    (hi : i < 8) :
    (sendCommandFrame cmd payload)[i + 1]? =
      some ((padPayload payload).getD i 0) := by
  interval_cases i <;> rfl

/-- Normalised payload bytes: original bytes below the payload length,
zero padding from there up to index 7. -/
theorem padPayload_getD (p : List Nat) (hp : p.length ≤ 8) (i : Nat)
    (hi : i < 8) :
    (padPayload (some p)).getD i 0 = if i < p.length then p.getD i 0 else 0 := by
  simp only [padPayload]
  by_cases hlen : p.length < 8
  · simp only [if_pos hlen]
    by_cases hip : i < p.length
    · rw [List.getD_append _ _ _ _ hip, if_pos hip]
    · rw [List.getD_append_right _ _ _ _ (by omega), if_neg hip]
      rcases lt_or_ge (i - p.length) (8 - p.length) with h | h
      · rw [List.getD_eq_getElem _ _ (by simpa using h)]
        simp
      · exact List.getD_eq_default _ _ (by simpa using h)
  · simp only [if_neg hlen]
    rw [if_pos (by omega)]

/-- Taking the first 8 payload bytes does not change bytes 0-7. -/
theorem take8_getD (p : List Nat) (i : Nat) (hi : i < 8) :
    (p.take 8).getD i 0 = p.getD i 0 := by
  rw [List.getD_eq_getD_get?, List.getD_eq_getD_get?, List.get?_eq_getElem?,
    List.get?_eq_getElem?, List.getElem?_take, if_pos hi]

/-! ### Claim theorems -/

/-- C1: for every pixel with channels in 0-255, the encoder downsamples to
R5 = R >> 3, G6 = G >> 2, B5 = B >> 3 and produces the 16-bit word
(B5 << 8) | (G6 >> 3) | ((G6 & 7) << 13) | (R5 << 3), serialized
little-endian (low byte first); (0,0,0) encodes to 0 and (255,255,255)
encodes to the maximal packed value 0xFFFF. -/
theorem C1_pixel_encode (R G B : Nat) (hR : R ≤ 255) (hG : G ≤ 255)
    (hB : B ≤ 255) :
    encodeRGB R G B =
      ((B >>> 3) <<< 8) ||| ((G >>> 2) >>> 3) ||| (((G >>> 2) &&& 7) <<< 13)
        ||| ((R >>> 3) <<< 3)
    ∧ packH (encodeRGB R G B) =
        some [encodeRGB R G B % 256, encodeRGB R G B / 256]
    ∧ encodeRGB 0 0 0 = 0 ∧ encodeRGB 255 255 255 = 0xFFFF := by
  refine ⟨rfl, ?_, by decide, by decide⟩
  have h := encodeRGB_arith R G B hR hG hB
  have hlt : encodeRGB R G B < 65536 := by rw [h]; omega
  simp [packH, hlt]

/-- Witness for C1 at the concrete pixel (10, 20, 30). -/
theorem C1_pixel_encode_witness :
    encodeRGB 10 20 30 =
      ((30 >>> 3) <<< 8) ||| ((20 >>> 2) >>> 3) ||| (((20 >>> 2) &&& 7) <<< 13)
        ||| ((10 >>> 3) <<< 3)
    ∧ packH (encodeRGB 10 20 30) =
        some [encodeRGB 10 20 30 % 256, encodeRGB 10 20 30 / 256]
    ∧ encodeRGB 0 0 0 = 0 ∧ encodeRGB 255 255 255 = 0xFFFF :=
  C1_pixel_encode 10 20 30 (by decide) (by decide) (by decide)

/-- C10: for every pixel with channels in 0-255 the packed value is below
2^16, so the struct.pack('H') serialization is total (never raises) and
yields exactly the two little-endian bytes appended to the line buffer. -/
theorem C10_packed_fits (R G B : Nat) (hR : R ≤ 255) (hG : G ≤ 255)
    (hB : B ≤ 255) :
    encodeRGB R G B < 2 ^ 16
    ∧ packH (encodeRGB R G B) = some (encodePixelLE (R, G, B)) := by
  have h := encodeRGB_arith R G B hR hG hB
  have hlt : encodeRGB R G B < 65536 := by rw [h]; omega
  exact ⟨by norm_num [hlt], by simp [packH, hlt, encodePixelLE]⟩

/-- Witness for C10 at the concrete pixel (255, 128, 1). -/
theorem C10_packed_fits_witness :
    encodeRGB 255 128 1 < 2 ^ 16
    ∧ packH (encodeRGB 255 128 1) = some (encodePixelLE (255, 128, 1)) :=
  C10_packed_fits 255 128 1 (by decide) (by decide) (by decide)

/-- C2: for every opcode and payload of length at most 8 (an omitted
payload behaving as the empty one), the built frame has length exactly 10,
bytes 0 and 9 both equal the opcode, bytes 1..len hold the payload in
order and the remaining positions up to byte 8 are zero. -/
theorem C2_frame_layout (cmd : Nat) (p : List Nat) (hp : p.length ≤ 8) :
    (sendCommandFrame cmd (some p)).length = 10
    ∧ (sendCommandFrame cmd (some p))[0]? = some cmd
    ∧ (sendCommandFrame cmd (some p))[9]? = some cmd
    ∧ (∀ i, i < p.length →
        (sendCommandFrame cmd (some p))[i + 1]? = some (p.getD i 0))
    ∧ (∀ i, p.length ≤ i → i < 8 →
        (sendCommandFrame cmd (some p))[i + 1]? = some 0)
    ∧ sendCommandFrame cmd none = sendCommandFrame cmd (some []) := by
  refine ⟨rfl, rfl, rfl, ?_, ?_, rfl⟩
  · intro i hi
    rw [frame_byte cmd _ i (by omega), padPayload_getD p hp i (by omega),
      if_pos hi]
  · intro i h1 h2
    rw [frame_byte cmd _ i h2, padPayload_getD p hp i h2, if_neg (by omega)]

/-- Witness for C2 with opcode 0xCE and the 2-byte payload [7, 7]. -/
theorem C2_frame_layout_witness :
    (sendCommandFrame 0xCE (some [7, 7])).length = 10
    ∧ (sendCommandFrame 0xCE (some [7, 7]))[0]? = some 0xCE
    ∧ (sendCommandFrame 0xCE (some [7, 7]))[9]? = some 0xCE
    ∧ (sendCommandFrame 0xCE (some [7, 7]))[1]? = some 7
    ∧ (sendCommandFrame 0xCE (some [7, 7]))[5]? = some 0 := by
  obtain ⟨h1, h2, h3, h4, h5, _⟩ := C2_frame_layout 0xCE [7, 7] (by decide)
  exact ⟨h1, h2, h3, by simpa using h4 0 (by decide),
    by simpa using h5 4 (by decide) (by decide)⟩

/-- C5 counterexample: a 9-byte payload does not fail — SendCommand builds
an ordinary 10-byte frame, identical to the one built from the first eight
payload bytes (byte 9 of the payload is silently dropped). -/
theorem C5_counterexample :
    sendCommandFrame 0xCC (some [1, 2, 3, 4, 5, 6, 7, 8, 9]) =
      [0xCC, 1, 2, 3, 4, 5, 6, 7, 8, 0xCC]
    ∧ sendCommandFrame 0xCC (some [1, 2, 3, 4, 5, 6, 7, 8, 9]) =
        sendCommandFrame 0xCC (some [1, 2, 3, 4, 5, 6, 7, 8]) :=
  ⟨rfl, rfl⟩

/-- C5 amended: for every payload longer than 8 bytes, frame building
silently truncates — the produced frame equals the frame of the first
eight payload bytes; no error is raised. -/
theorem C5_truncation (cmd : Nat) (p : List Nat) (hp : 8 < p.length) :
    sendCommandFrame cmd (some p) = sendCommandFrame cmd (some (p.take 8)) := by
  have hlen : (p.take 8).length = 8 := by
    rw [List.length_take]; omega
  simp only [sendCommandFrame]
  have hpad1 : padPayload (some p) = p := by
    simp only [padPayload]
    rw [if_neg (by omega)]
  have hpad2 : padPayload (some (p.take 8)) = p.take 8 := by
    simp only [padPayload, hlen]
    rw [if_neg (by omega)]
  rw [hpad1, hpad2, take8_getD p 0 (by omega), take8_getD p 1 (by omega),
    take8_getD p 2 (by omega), take8_getD p 3 (by omega),
    take8_getD p 4 (by omega), take8_getD p 5 (by omega),
    take8_getD p 6 (by omega), take8_getD p 7 (by omega)]

/-- Witness for the amended C5 with a 9-byte payload. -/
theorem C5_truncation_witness :
    sendCommandFrame 0xCB (some [9, 8, 7, 6, 5, 4, 3, 2, 1]) =
      sendCommandFrame 0xCB (some ([9, 8, 7, 6, 5, 4, 3, 2, 1].take 8)) :=
  C5_truncation 0xCB [9, 8, 7, 6, 5, 4, 3, 2, 1] (by decide)

/-- C6 counterexample: at level 50 the code sends byte 127
(int truncation of 127.5) while round(50/100*255) = 128. -/
theorem C6_counterexample :
    setBrightnessLevel true 50 = 127
    ∧ round ((50 : ℚ) / 100 * 255) = 128 := by
  refine ⟨rfl, ?_⟩
  have h : ((50 : ℚ) / 100 * 255 + 1 / 2) = ((128 : ℤ) : ℚ) := by norm_num
  rw [round_eq, h, Int.floor_intCast]

/-- C6 amended: on a range-capable tier the encoded byte is the floor
⌊level · 255 / 100⌋ (integer truncation, not rounding); it is monotone
non-decreasing in the level, stays within 0-255, and reaches 255 at
level 100. -/
theorem C6_brightness_scale (l₁ l₂ : Nat) (h12 : l₁ ≤ l₂) (h2 : l₂ ≤ 100) :
    setBrightnessLevel true l₁ = l₁ * 255 / 100
    ∧ setBrightnessLevel true l₁ ≤ setBrightnessLevel true l₂
    ∧ setBrightnessLevel true l₂ ≤ 255
    ∧ setBrightnessLevel true 100 = 255 := by
  refine ⟨rfl, ?_, ?_, rfl⟩
  · simp only [setBrightnessLevel, if_pos]
    exact Nat.div_le_div_right (Nat.mul_le_mul_right _ h12)
  · simp only [setBrightnessLevel, if_pos]
    omega

/-- Witness for the amended C6 at levels 25 ≤ 75. -/
theorem C6_brightness_scale_witness :
    setBrightnessLevel true 25 = 25 * 255 / 100
    ∧ setBrightnessLevel true 25 ≤ setBrightnessLevel true 75
    ∧ setBrightnessLevel true 75 ≤ 255
    ∧ setBrightnessLevel true 100 = 255 :=
  C6_brightness_scale 25 75 (by decide) (by decide)

/-- C7: on a tier without the brightness range, level 0 sends byte 1 (off)
and every level in (0, 100] sends byte 0 (full brightness) — the inverted
polarity of the source is preserved exactly. -/
theorem C7_binary_brightness (l : Nat) (h0 : 0 < l) (_h100 : l ≤ 100) :
    setBrightnessLevel false 0 = 1 ∧ setBrightnessLevel false l = 0 := by
  refine ⟨rfl, ?_⟩
  simp [setBrightnessLevel, Nat.pos_iff_ne_zero.mp h0]

/-- Witness for C7 at level 42. -/
theorem C7_binary_brightness_witness :
    setBrightnessLevel false 0 = 1 ∧ setBrightnessLevel false 42 = 0 :=
  C7_binary_brightness 42 (by decide) (by decide)

/-- C4: evaluation of Hello's reply processing at the failing input.  For
the 5-byte reply [0xCA, 'H', 'E', 'L', 'L'] the source logs the
short-response and framing warnings but then unconditionally evaluates
response[6] (line 124), which raises IndexError — modelled as `none` —
instead of returning normally with the tier left at its default, as the
claim states. -/
theorem C4_hello_short_reply_crashes :
    helloProcess [0xCA, 72, 69, 76, 76] SubRevision.A01 = none := rfl

/-- Invariant of the chunking loop: flushed lines followed by the current
buffer always equal the bytes already consumed. -/
theorem pushPixel_foldl_flatten (dispW : Nat) (ps : List (Nat × Nat × Nat))
    (acc : List (List Nat) × List Nat) :
    (ps.foldl (pushPixel dispW) acc).1.flatten
        ++ (ps.foldl (pushPixel dispW) acc).2
      = acc.1.flatten ++ acc.2 ++ ps.flatMap encodePixelLE := by
  induction ps generalizing acc with
  | nil => simp
  | cons p ps ih =>
    rw [List.foldl_cons, ih, List.flatMap_cons]
    simp only [pushPixel]
    split
    · simp [List.append_assoc]
    · simp [List.append_assoc]

/-- Concatenating all enqueued pixel lines recovers the raster-order byte
stream of the image. -/
theorem displayLines_flatten (dispW iw ih : Nat)
    (pix : Nat → Nat → Nat × Nat × Nat) :
    (displayLines dispW iw ih pix).flatten
      = (rasterPixels iw ih pix).flatMap encodePixelLE := by
  have h := pushPixel_foldl_flatten dispW (rasterPixels iw ih pix) ([], [])
  simp only [displayLines]
  split
  · rw [List.flatten_append]
    simpa using h
  · rename_i hlen
    have hnil : ((rasterPixels iw ih pix).foldl (pushPixel dispW) ([], [])).2
        = [] := by
      cases hl : ((rasterPixels iw ih pix).foldl (pushPixel dispW) ([], [])).2
      · rfl
      · rw [hl] at hlen; simp at hlen
    rw [hnil] at h
    simpa using h

/-- Each pixel contributes exactly two bytes to the stream. -/
theorem flatMap_encode_length (ps : List (Nat × Nat × Nat)) :
    (ps.flatMap encodePixelLE).length = 2 * ps.length := by
  induction ps with
  | nil => rfl
  | cons p ps ih =>
    rw [List.flatMap_cons, List.length_append, ih]
    simp [encodePixelLE]
    omega

/-- The raster traversal visits every pixel of the iw × ih rectangle
exactly once. -/
theorem rasterPixels_length (iw ih : Nat)
    (pix : Nat → Nat → Nat × Nat × Nat) :
    (rasterPixels iw ih pix).length = ih * iw := by
  induction ih with
  | zero => simp [rasterPixels]
  | succ n ihn =>
    rw [rasterPixels, List.range_succ, List.flatMap_append, List.length_append]
    rw [rasterPixels] at ihn
    rw [ihn]
    simp [Nat.succ_mul]

/-- C9: the pixels are encoded in raster order (rows top-to-bottom,
columns left-to-right), two bytes each; lines are flushed whenever the
buffer reaches 8 × displayWidth bytes and the final partial buffer is
flushed after the last row, so the concatenation of all enqueued lines is
exactly the 2·w·h-byte raster-order encoding of the image. -/
theorem C9_raster_stream (dispW iw ih : Nat)
    (pix : Nat → Nat → Nat × Nat × Nat) :
    (displayLines dispW iw ih pix).flatten
      = (rasterPixels iw ih pix).flatMap encodePixelLE
    ∧ ((displayLines dispW iw ih pix).flatten).length = 2 * (iw * ih) := by
  refine ⟨displayLines_flatten dispW iw ih pix, ?_⟩
  rw [displayLines_flatten dispW iw ih pix, flatMap_encode_length,
    rasterPixels_length]
  ring

/-- Masking with 255 is reduction mod 256. -/
theorem and255_eq_mod (n : Nat) : n &&& 255 = n % 256 := by
  have h := Nat.and_pow_two_sub_one_eq_mod n 8
  norm_num at h
  exact h

/-- High byte of a 16-bit value: shifting by 8 then masking with 255 is
division by 256. -/
theorem shift8_and255 (n : Nat) (hn : n < 65536) :
    (n >>> 8) &&& 255 = n / 256 := by
  rw [Nat.shiftRight_eq_div_pow, and255_eq_mod]
  show n / 256 % 256 = n / 256
  omega

/-- C8 counterexample: a 321-pixel-wide image on a 320-pixel-wide display
is clamped — DisplayBitmap with zero width/height arguments resolves to
the display width, not the image's native width. -/
theorem C8_counterexample :
    resolvedSize 320 480 321 10 0 0 = (320, 10)
    ∧ resolvedSize 320 480 321 10 0 0 ≠ (321, 10) := by decide

/-- C8 amended: for every non-empty source image whose native dimensions
do not exceed the display's (and fit the protocol's 16-bit coordinate
fields), DisplayBitmap with x = 0, y = 0, width = 0, height = 0 resolves
to the image's native dimensions and enqueues first a DISPLAY_BITMAP
frame whose 8-byte payload is the big-endian split of the inclusive
bounding box (0, 0, w-1, h-1). -/
theorem C8_native_bbox (dispW dispH w h : Nat)
    (pix : Nat → Nat → Nat × Nat × Nat)
    (hw : 0 < w) (hh : 0 < h) (hfw : w ≤ dispW) (hfh : h ≤ dispH)
    (hw16 : w ≤ 65536) (hh16 : h ≤ 65536) :
    resolvedSize dispW dispH w h 0 0 = (w, h)
    ∧ displayBitmapPayload 0 0 w h =
        [0, 0, 0, 0, (w - 1) / 256, (w - 1) % 256,
         (h - 1) / 256, (h - 1) % 256]
    ∧ (displayEnqueueBlocks dispW dispH w h pix 0 0 0 0).head? =
        some [Job.writeData (sendCommandFrame DISPLAY_BITMAP
          (some (displayBitmapPayload 0 0 w h)))] := by
  have hres : resolvedSize dispW dispH w h 0 0 = (w, h) := by
    have h1 : ¬ (h > dispH) := by omega
    have h2 : ¬ (w > dispW) := by omega
    simp [resolvedSize, h1, h2]
  have hpay : displayBitmapPayload 0 0 w h =
      [0, 0, 0, 0, (w - 1) / 256, (w - 1) % 256,
       (h - 1) / 256, (h - 1) % 256] := by
    simp only [displayBitmapPayload]
    have e1 : 0 + w - 1 = w - 1 := by omega
    have e2 : 0 + h - 1 = h - 1 := by omega
    rw [e1, e2, shift8_and255 (w - 1) (by omega), and255_eq_mod (w - 1),
      shift8_and255 (h - 1) (by omega), and255_eq_mod (h - 1)]
    norm_num
  refine ⟨hres, hpay, ?_⟩
  simp [displayEnqueueBlocks, displayCmdJob, hres]

/-- Witness for the amended C8: a 320 × 480 image on a 320 × 480
display. -/
theorem C8_native_bbox_witness :
    resolvedSize 320 480 320 480 0 0 = (320, 480)
    ∧ displayBitmapPayload 0 0 320 480 =
        [0, 0, 0, 0, (320 - 1) / 256, (320 - 1) % 256,
         (480 - 1) / 256, (480 - 1) % 256]
    ∧ (displayEnqueueBlocks 320 480 320 480 (fun _ _ => (0, 0, 0))
        0 0 0 0).head? =
        some [Job.writeData (sendCommandFrame DISPLAY_BITMAP
          (some (displayBitmapPayload 0 0 320 480)))] :=
  C8_native_bbox 320 480 320 480 (fun _ _ => (0, 0, 0)) (by decide)
    (by decide) (by decide) (by decide) (by decide) (by decide)

/-- Merged queue contents contain each producer's own blocks as a
subsequence: blocks are never split or reordered, only interleaved. -/
theorem Merge.sublist {a b c : List (List Job)} (h : Merge a b c) :
    a.Sublist c := by
  induction h with
  | nil => exact List.Sublist.slnil
  | left x _ ihm => exact ihm.cons₂ x
  | right x _ ihm => exact ihm.cons x

/-- Locating a singleton subsequence inside a list. -/
theorem singleton_sublist_split {α : Type} (a : α) (l : List α)
    (h : ([a]).Sublist l) : ∃ s t, l = s ++ a :: t :=
  List.append_of_mem (List.singleton_sublist.mp h)

/-- Locating a two-element subsequence inside a list. -/
theorem pair_sublist_split {α : Type} (a b : α) (l : List α)
    (h : ([a, b]).Sublist l) : ∃ s t u, l = s ++ a :: t ++ b :: u := by
  induction l with
  | nil => cases h
  | cons x xs ihl =>
    cases h with
    | cons _ h' =>
      obtain ⟨s, t, u, rfl⟩ := ihl h'
      exact ⟨x :: s, t, u, rfl⟩
    | cons₂ _ h' =>
      obtain ⟨t, u, rfl⟩ := singleton_sublist_split b xs h'
      exact ⟨[], t, u, rfl⟩

/-- C3 counterexample: painting a 1 × 1 image enqueues the DISPLAY_BITMAP
frame and the pixel line in two separate critical sections, so the mutex
admits an interleaving in which another producer's SET_BRIGHTNESS frame
sits strictly between the image's command frame and its pixel line. -/
theorem C3_counterexample :
    Merge (displayEnqueueBlocks 320 480 1 1 (fun _ _ => (0, 0, 0)) 0 0 0 0)
      [[Job.writeData (sendCommandFrame SET_BRIGHTNESS (some [0]))]]
      [[displayCmdJob 320 480 1 1 0 0 0 0],
       [Job.writeData (sendCommandFrame SET_BRIGHTNESS (some [0]))],
       displayLineBlock 320 480 1 1 (fun _ _ => (0, 0, 0)) 0 0]
    ∧ ([[displayCmdJob 320 480 1 1 0 0 0 0],
        [Job.writeData (sendCommandFrame SET_BRIGHTNESS (some [0]))],
        displayLineBlock 320 480 1 1 (fun _ _ => (0, 0, 0)) 0 0]).flatten
      = [displayCmdJob 320 480 1 1 0 0 0 0,
         Job.writeData (sendCommandFrame SET_BRIGHTNESS (some [0])),
         Job.writeLine [0, 0]] := by
  constructor
  · exact Merge.left _ (Merge.right _ (Merge.left _ Merge.nil))
  · decide

/-- C3 amended: in every mutex-respecting interleaving of one image paint
with other producers' blocks, the image's pixel lines stay one contiguous
unsplit block and the DISPLAY_BITMAP frame precedes it; however the frame
and the lines are enqueued in two separate critical sections, so a
foreign block may sit between them (see the counterexample). -/
theorem C3_lines_atomic (dispW dispH nativeW nativeH x y imageW imageH : Nat)
    (pix : Nat → Nat → Nat × Nat × Nat) (other merged : List (List Job))
    (hm : Merge
      (displayEnqueueBlocks dispW dispH nativeW nativeH pix x y imageW imageH)
      other merged) :
    ∃ s t u, merged =
      s ++ [displayCmdJob dispW dispH nativeW nativeH x y imageW imageH]
        :: t ++ displayLineBlock dispW dispH nativeW nativeH pix imageW imageH
        :: u :=
  pair_sublist_split _ _ merged (Merge.sublist hm)

/-- Witness for the amended C3: a 2 × 1 image merged with no other
producer. -/
theorem C3_lines_atomic_witness :
    ∃ s t u, displayEnqueueBlocks 320 480 2 1 (fun _ _ => (1, 2, 3)) 0 0 0 0 =
      s ++ [displayCmdJob 320 480 2 1 0 0 0 0]
        :: t ++ displayLineBlock 320 480 2 1 (fun _ _ => (1, 2, 3)) 0 0
        :: u :=
  C3_lines_atomic 320 480 2 1 0 0 0 0 (fun _ _ => (1, 2, 3)) []
    (displayEnqueueBlocks 320 480 2 1 (fun _ _ => (1, 2, 3)) 0 0 0 0)
    (Merge.left _ (Merge.left _ Merge.nil))

end RevB
